import Mathlib

/-!
A verification development for `kadro/kadro.py`, a fluent data-frame wrapper
over pandas.  The pandas objects are modelled shallowly:

* a DataFrame is a `Table`: an ordered list of column names (`header`)
  together with labelled rows (`rows`), each row carrying its pandas index
  label; a cell is `Option Int`, with `none` standing for a missing value
  (NaN);
* a pandas Series produced by a user transform is a list of
  (index label, value) pairs;
* `kd.Frame` is `Frame`: a `Table` plus the list of active group columns.

Every operation below is translated from the corresponding method of
`kadro.py` (line numbers in the doc comments refer to that file).  A second
group of definitions (`Heap`, `FrameR`, the `...H` operations) repeats the
state-changing methods with the Python object heap made explicit, in order
to reason about in-place mutation of the receiver.
-/

namespace Kadro

/-- A cell of a table; `none` models a pandas missing value (NaN). -/
abbrev Cell := Option Int

/-- A row of cell values, in header order. -/
abbrev Row := List Cell

/-- A pandas Series as returned by a user transform: (index label, value)
pairs. -/
abbrev Series := List (Nat × Cell)

/-- Model of a pandas DataFrame: ordered column names plus rows, each row
carrying its index label. -/
structure Table where
  header : List String
  rows : List (Nat × Row)
deriving DecidableEq, Repr

/-- Model of `kd.Frame`: a DataFrame plus the list of active group columns. -/
structure Frame where
  df : Table
  groups : List String
deriving DecidableEq, Repr

/-- The index labels of the table, in row order. -/
def Table.labels (t : Table) : List Nat := t.rows.map Prod.fst

/-- Number of rows (`df.shape[0]`). -/
def Table.nrows (t : Table) : Nat := t.rows.length

/-- A table is rectangular: each row has one cell per header entry. -/
def Table.wf (t : Table) : Prop := ∀ p ∈ t.rows, p.2.length = t.header.length

/-- Value of column `c` in row `r` (pandas `row[c]`); `none` if the column
is absent from the header. -/
def cellOf (t : Table) (r : Row) (c : String) : Cell :=
  match t.header.findIdx? (fun h => h == c) with
  | some p => r.getD p none
  | none => none

/-- The values of column `c` in row order (labels dropped). -/
def Table.colVals (t : Table) (c : String) : List Cell :=
  t.rows.map (fun p => cellOf t p.2 c)

/-- The key tuple of row `r` for the column list `cols`. -/
def keyOf (t : Table) (cols : List String) (r : Row) : List Cell :=
  cols.map (cellOf t r)

/-- Python `Frame.__init__` (kadro.py lines 31-41): stores a copy of the incoming
dataframe and overwrites its index with `np.arange(df.shape[0])`, discarding
any caller-provided index. -/
def Frame.init (df : Table) (groups : List String) : Frame :=
  ⟨⟨df.header, (df.rows.map Prod.snd).enum⟩, groups⟩

/-- The invariant claimed in the spec: every group column names a column of
the table of the frame. -/
def groupsValid (fr : Frame) : Bool :=
  fr.groups.all (fun g => fr.df.header.contains g)

/-- Ascending comparison on cells; missing values sort last, as in pandas. -/
def cellLe : Cell → Cell → Bool
  | none, none => true
  | none, some _ => false
  | some _, none => true
  | some a, some b => decide (a ≤ b)

/-- Lexicographic comparison of key tuples. -/
def lexLe : List Cell → List Cell → Bool
  | [], _ => true
  | _ :: _, [] => false
  | a :: as, b :: bs => if a = b then lexLe as bs else cellLe a b

/-- Row comparison used by `sort`: compare the key tuples drawn from
`cols`, ascending or descending. -/
def rowLe (t : Table) (cols : List String) (ascending : Bool) (r1 r2 : Row) : Bool :=
  if ascending then lexLe (keyOf t cols r1) (keyOf t cols r2)
  else lexLe (keyOf t cols r2) (keyOf t cols r1)

/-- Relation form of `lexLe`, for sorting. -/
def lexLeP : List Cell → List Cell → Prop := fun a b => lexLe a b = true

instance : DecidableRel lexLeP := fun a b => instDecidableEqBool (lexLe a b) true

/-- Relation form of `rowLe`, for sorting. -/
def rowLeP (t : Table) (cols : List String) (ascending : Bool) : Row → Row → Prop :=
  fun r1 r2 => rowLe t cols ascending r1 r2 = true

instance (t : Table) (cols : List String) (ascending : Bool) :
    DecidableRel (rowLeP t cols ascending) :=
  fun r1 r2 => instDecidableEqBool (rowLe t cols ascending r1 r2) true

/-- The rows (label, key tuple) whose key contains no missing value;
pandas `groupby` silently drops rows whose key has a NaN (`dropna=True`). -/
def taggedKeys (t : Table) (G : List String) : List (Nat × List Cell) :=
  t.rows.filterMap (fun p =>
    let k := keyOf t G p.2
    if k.all Option.isSome then some (p.1, k) else none)

/-- The distinct key tuples realised by the partitioner, in ascending
lexicographic order (pandas `groupby(sort=True)`). -/
def distinctKeys (t : Table) (G : List String) : List (List Cell) :=
  List.insertionSort lexLeP (((taggedKeys t G).map Prod.snd).dedup)

/-- The labels of the rows belonging to the partition of key `k`, in
original row order. -/
def labelsOfKey (t : Table) (G : List String) (k : List Cell) : List Nat :=
  (taggedKeys t G).filterMap (fun p => if p.2 = k then some p.1 else none)

/-- The label lists of all partitions, in ascending key order. -/
def partitionLabels (t : Table) (G : List String) : List (List Nat) :=
  (distinctKeys t G).map (labelsOfKey t G)

/-- The sub-table holding the rows with the given labels (a pandas group
slice), in original row order. -/
def takeLabels (t : Table) (labs : List Nat) : Table :=
  ⟨t.header, t.rows.filter (fun p => labs.contains p.1)⟩

/-- Python `series[i]` by index label: the value stored at label `i`, or missing. -/
def seriesLookup (s : Series) (i : Nat) : Cell :=
  match s.find? (fun p => p.1 == i) with
  | some p => p.2
  | none => none

/-- Python `df[c] = <values>`: overwrite column `c` if present, else append it at
the end of the header; row with label `i` receives `f i`. -/
def setCol (t : Table) (c : String) (f : Nat → Cell) : Table :=
  match t.header.findIdx? (fun h => h == c) with
  | some p => ⟨t.header, t.rows.map (fun q => (q.1, q.2.set p (f q.1)))⟩
  | none => ⟨t.header ++ [c], t.rows.map (fun q => (q.1, q.2 ++ [f q.1]))⟩

/-- The concatenated series `pd.concat([group.pipe(f) for group in grouped])`
of kadro.py line 57: apply `f` to every partition slice of `t` and join the
results. -/
def partSeries (parts : List (List Nat)) (t : Table) (f : Table → Series) : Series :=
  (parts.map (fun labs => f (takeLabels t labs))).flatten

/-- The assignment loop of `_group_mutate` (kadro.py lines 56-58):
`df_copy[key] = pd.concat(...)`.  pandas aligns the assigned series with the
index of the frame; a duplicate label in the series raises, otherwise labels not
covered by the series receive a missing value.  No length check occurs. -/
def mutCols (parts : List (List Nat)) :
    Table → List (String × (Table → Series)) → Except String Table
  | acc, [] => .ok acc
  | acc, (c, f) :: rest =>
    let s := partSeries parts acc f
    if (s.map Prod.fst).Nodup then mutCols parts (setCol acc c (seriesLookup s)) rest
    else .error "cannot reindex from a duplicate axis"

/-- Python `_group_mutate` (kadro.py lines 52-59): partition once, run every
transform per partition, assign each result as a column, keep the groups. -/
def Frame.group_mutate (fr : Frame) (kwargs : List (String × (Table → Series))) :
    Except String Frame :=
  match mutCols (partitionLabels fr.df fr.groups) fr.df kwargs with
  | .ok t => .ok (Frame.init t fr.groups)
  | .error e => .error e

/-- The assignment loop of ungrouped `mutate` (kadro.py lines 89-90):
`df_copy[mut] = kwargs[mut](df_copy)`, with the same series alignment. -/
def mutColsU : Table → List (String × (Table → Series)) → Except String Table
  | acc, [] => .ok acc
  | acc, (c, f) :: rest =>
    let s := f acc
    if (s.map Prod.fst).Nodup then mutColsU (setCol acc c (seriesLookup s)) rest
    else .error "cannot reindex from a duplicate axis"

/-- Python `mutate` (kadro.py lines 79-91): dispatch to `_group_mutate` when groups
are active. -/
def Frame.mutate (fr : Frame) (kwargs : List (String × (Table → Series))) :
    Except String Frame :=
  if !fr.groups.isEmpty then fr.group_mutate kwargs
  else
    match mutColsU fr.df kwargs with
    | .ok t => .ok (Frame.init t fr.groups)
    | .error e => .error e

/-- Python `filter` (kadro.py lines 93-104): each predicate is applied to the
current copy and selects the rows whose entry is true. -/
def Frame.filter (fr : Frame) (preds : List (Table → List Bool)) : Frame :=
  Frame.init
    (preds.foldl (fun acc p =>
      ⟨acc.header, ((acc.rows.zip (p acc)).filter (fun q => q.2)).map Prod.fst⟩) fr.df)
    fr.groups

/-- Python `df[columns]`: the table restricted to the named columns, in the given
order. -/
def restrictCols (t : Table) (cols : List String) : Table :=
  ⟨cols, t.rows.map (fun p => (p.1, cols.map (cellOf t p.2)))⟩

/-- Python `select` (kadro.py lines 106-116): keep the named columns; pandas raises
a KeyError when a name is absent.  The groups are kept unchanged. -/
def Frame.select (fr : Frame) (cols : List String) : Except String Frame :=
  if cols.all (fun c => fr.df.header.contains c) then
    .ok (Frame.init (restrictCols fr.df cols) fr.groups)
  else .error "KeyError"

/-- Python `drop` (kadro.py lines 143-153): keep the columns not listed.  The
groups are kept unchanged. -/
def Frame.drop (fr : Frame) (cols : List String) : Frame :=
  Frame.init (restrictCols fr.df (fr.df.header.filter (fun c => !(cols.contains c))))
    fr.groups

/-- Python `rename` (kadro.py lines 118-129): translate header names through the
mapping; missing names are kept. -/
def Frame.rename (fr : Frame) (m : List (String × String)) : Frame :=
  Frame.init
    ⟨fr.df.header.map (fun h => (((m.find? (fun q => q.1 == h)).map Prod.snd).getD h)),
      fr.df.rows⟩
    fr.groups

/-- Python `set_names` (kadro.py lines 132-141): `df_copy.columns = names`; pandas
raises when the lengths differ. -/
def Frame.set_names (fr : Frame) (names : List String) : Except String Frame :=
  if names.length = fr.df.header.length then
    .ok (Frame.init ⟨names, fr.df.rows⟩ fr.groups)
  else .error "Length mismatch"

/-- Python `sort` (kadro.py lines 155-167): the sort columns are the group columns
followed by the requested ones. -/
def Frame.sort (fr : Frame) (cols : List String) (ascending : Bool) :
    Except String Frame :=
  if (fr.groups ++ cols).all (fun c => fr.df.header.contains c) then
    .ok (Frame.init
      ⟨fr.df.header,
        List.insertionSort (fun p q => rowLeP fr.df (fr.groups ++ cols) ascending p.2 q.2)
          fr.df.rows⟩
      fr.groups)
  else .error "KeyError"

/-- Python `group_by` (kadro.py lines 169-182): validate the names against the
columns and raise before any partitioning happens.  (In the Python source
the raise names the undefined class `TibbleError`, so the exception that
actually surfaces is a `NameError`; either way the call fails here.) -/
def Frame.group_by (fr : Frame) (args : List String) : Except String Frame :=
  if args.any (fun c => !(fr.df.header.contains c)) then
    .error "Wrong column name in .group_by method: does not exist."
  else .ok (Frame.init fr.df args)

/-- Python `ungroup` (kadro.py lines 184-188). -/
def Frame.ungroup (fr : Frame) : Frame := Frame.init fr.df []

/-- Python `_agg_nogroups` (kadro.py lines 205-207): a single output row, no key
columns, groups cleared. -/
def Frame.agg_nogroups (fr : Frame) (kwargs : List (String × (Table → Cell))) : Frame :=
  Frame.init ⟨kwargs.map Prod.fst, [(0, kwargs.map (fun q => q.2 fr.df))]⟩ []

/-- Python `agg` (kadro.py lines 209-230): one row per partition, keys ascending
(pandas `groupby` sorts the keys), columns renamed to the group columns
followed by the keyword names; the groups of the result are cleared. -/
def Frame.agg (fr : Frame) (kwargs : List (String × (Table → Cell))) : Frame :=
  if fr.groups.isEmpty then fr.agg_nogroups kwargs
  else
    Frame.init
      ⟨fr.groups ++ kwargs.map Prod.fst,
        ((distinctKeys fr.df fr.groups).map (fun k =>
          k ++ kwargs.map (fun q =>
            q.2 (takeLabels fr.df (labelsOfKey fr.df fr.groups k))))).enum⟩
      []

/-- Python `df.iloc[positions]`: select rows by position. -/
def ilocRows (t : Table) (positions : List Nat) : Table :=
  ⟨t.header, positions.filterMap (fun p => t.rows[p]?)⟩

/-- Python `head` (kadro.py lines 272-279). -/
def Frame.head (fr : Frame) (n : Nat) : Frame :=
  Frame.init ⟨fr.df.header, fr.df.rows.take n⟩ fr.groups

/-- Python `tail` (kadro.py lines 281-288): the last `n` rows. -/
def Frame.tail (fr : Frame) (n : Nat) : Frame :=
  Frame.init ⟨fr.df.header, fr.df.rows.drop (fr.df.rows.length - n)⟩ fr.groups

/-- Python `slice` (kadro.py lines 290-301): `df_copy.iloc[args]`. -/
def Frame.slice (fr : Frame) (positions : List Nat) : Frame :=
  Frame.init (ilocRows fr.df positions) fr.groups

/-- Python `sample_n` (kadro.py lines 259-270): `np.random.choice` picks a list of
row positions; the draw itself is external randomness, modelled here as the
`rowIds` argument. -/
def Frame.sample_n (fr : Frame) (rowIds : List Nat) : Frame :=
  Frame.init (ilocRows fr.df rowIds) fr.groups

/-- The shared column names of two tables, in left-header order (the set
`set(self.columns).intersection(other.columns)` of kadro.py line 305 is used
only for emptiness and membership tests). -/
def commonCols (a b : Table) : List String :=
  a.header.filter (fun c => b.header.contains c)

/-- Python `_check_join_params` (kadro.py lines 303-310).  A falsy `by` (absent or
the empty list) is replaced by the column intersection for the duration of
the checks only; the replacement is a local variable and does not reach the
merge. -/
def check_join_params (a b : Table) (bys : Option (List String)) : Except String Unit :=
  let byR := match bys with
    | none => commonCols a b
    | some l => if l.isEmpty then commonCols a b else l
  if byR.isEmpty then .error "Columns do not overlap!"
  else if byR.any (fun i => !(a.header.contains i) || !(b.header.contains i)) then
    .error "Column does not overlap in both datastructures"
  else .ok ()

/-- Join flavour of `pd.merge`. -/
inductive How
  | left
  | inner
deriving DecidableEq, Repr

/-- Python `pd.merge(left, right, how=..., on=keys)`: match rows on equality of the
key tuples (missing key values match each other, as in pandas), emit the
left columns followed by the non-key right columns, suffixing colliding
non-key names with "_x"/"_y". -/
def mergeTables (a b : Table) (keys : List String) (how : How) : Table :=
  let rcols := b.header.filter (fun c => !(keys.contains c))
  let lheader := a.header.map (fun c =>
    if b.header.contains c && !(keys.contains c) then c ++ "_x" else c)
  let rheader := rcols.map (fun c => if a.header.contains c then c ++ "_y" else c)
  let outRows : List Row :=
    (a.rows.map (fun p =>
      let k := keyOf a keys p.2
      let ms := b.rows.filter (fun q => keyOf b keys q.2 == k)
      match how, ms with
      | .left, [] => [p.2 ++ rcols.map (fun _ => (none : Cell))]
      | _, ms2 => ms2.map (fun q => p.2 ++ rcols.map (cellOf b q.2)))).flatten
  ⟨lheader ++ rheader, outRows.enum⟩

/-- Python `pd.merge` key resolution: `on=None` means the shared columns. -/
def resolveKeys (a b : Table) (bys : Option (List String)) : List String :=
  match bys with
  | none => commonCols a b
  | some l => l

/-- Python `left_join` (kadro.py lines 312-315): validate, merge, and keep the
groups of the receiver. -/
def Frame.left_join (fr other : Frame) (bys : Option (List String)) :
    Except String Frame :=
  match check_join_params fr.df other.df bys with
  | .error e => .error e
  | .ok _ =>
    .ok (Frame.init (mergeTables fr.df other.df (resolveKeys fr.df other.df bys) .left)
      fr.groups)

/-- Python `inner_join` (kadro.py lines 317-320). -/
def Frame.inner_join (fr other : Frame) (bys : Option (List String)) :
    Except String Frame :=
  match check_join_params fr.df other.df bys with
  | .error e => .error e
  | .ok _ =>
    .ok (Frame.init (mergeTables fr.df other.df (resolveKeys fr.df other.df bys) .inner)
      fr.groups)

/-- The reading the spec gives of "distinct key tuples of G" for claim C5: the
deduplicated key tuples of all rows, missing values included.  (Spec-side
notion, for comparison with what `agg` produces.) -/
def specDistinctKeyTuples (t : Table) (G : List String) : List (List Cell) :=
  (t.rows.map (fun p => keyOf t G p.2)).dedup

/-- The key tuples the partitioner realises, before sorting: rows with a
missing key value are dropped. -/
def presentKeyTuples (t : Table) (G : List String) : List (List Cell) :=
  ((taggedKeys t G).map Prod.snd).dedup

/-- The contract "each transform returns one value per row of its input,
labelled by that row" — the benign reading of a transform that returns a
sequence whose length is the row count of the partition. -/
def alignedTransforms (kwargs : List (String × (Table → Series))) : Prop :=
  ∀ p ∈ kwargs, ∀ t : Table, (p.2 t).map Prod.fst = t.labels

/-- The index labels of the frame are the consecutive integers 0 .. nrows-1. -/
def labelsOk (fr : Frame) : Prop :=
  fr.df.labels = List.range fr.df.nrows

/-! ## The object heap made explicit

The Python methods manipulate heap objects: `self.df` is a reference, and
`df_copy = self.df.copy()` allocates, while `df_copy[k] = v`,
`df_copy.columns = names` and `self.df.index = ...` write an existing
object in place.  To state that no operation observably mutates the
table of the receiver, the same methods are repeated below over an explicit
heap of tables; a `FrameR` holds the address of its dataframe. -/

/-- The heap: table objects, addressed by position. -/
abbrev Heap := List Table

/-- The default for a dangling read. -/
def emptyT : Table := ⟨[], []⟩

/-- Dereference a table address. -/
def readH (h : Heap) (a : Nat) : Table := (h[a]?).getD emptyT

/-- Python `x.copy()` and every pandas operation returning a fresh object allocate
at the end of the heap. -/
def allocH (h : Heap) (t : Table) : Heap × Nat := (h ++ [t], h.length)

/-- An in-place write to an existing object. -/
def writeH (h : Heap) (a : Nat) (t : Table) : Heap := h.set a t

/-- A frame holding a reference to its dataframe. -/
structure FrameR where
  dfA : Nat
  groups : List String

/-- Python `Frame.__init__` with the heap explicit: `self.df = df.copy()`
allocates a fresh object, then `self.df.index = np.arange(...)` writes that
copy in place (kadro.py lines 31-41). -/
def initH (h : Heap) (dfA : Nat) (groups : List String) : Heap × FrameR :=
  let al := allocH h (readH h dfA)
  let t := readH al.1 al.2
  (writeH al.1 al.2 ⟨t.header, (t.rows.map Prod.snd).enum⟩, ⟨al.2, groups⟩)

/-- The assignment loop of ungrouped `mutate` over the heap:
`df_copy[mut] = f(df_copy)` writes the copy in place; a failing alignment
raises, leaving the heap as it stands. -/
def mutLoopH (aC : Nat) : Heap → List (String × (Table → Series)) → Heap × Bool
  | h, [] => (h, true)
  | h, (c, f) :: rest =>
    let t := readH h aC
    let s := f t
    if (s.map Prod.fst).Nodup then
      mutLoopH aC (writeH h aC (setCol t c (seriesLookup s))) rest
    else (h, false)

/-- Python `mutate` (ungrouped path) over the heap: copy the table of the receiver,
assign the columns in place on the copy, wrap the copy in a new frame.
`none` signals the raised exception. -/
def mutateH (h : Heap) (fr : FrameR) (kwargs : List (String × (Table → Series))) :
    Heap × Option FrameR :=
  let al := allocH h (readH h fr.dfA)
  let lp := mutLoopH al.2 al.1 kwargs
  if lp.2 then
    let fin := initH lp.1 al.2 fr.groups
    (fin.1, some fin.2)
  else (lp.1, none)

/-- The predicate loop of `filter` over the heap: `df_copy = df_copy[pred]`
rebinds the local name to a freshly allocated object each time. -/
def filterLoopH : Heap → Nat → List (Table → List Bool) → Heap × Nat
  | h, a, [] => (h, a)
  | h, a, p :: rest =>
    let t := readH h a
    let al := allocH h ⟨t.header, ((t.rows.zip (p t)).filter (fun q => q.2)).map Prod.fst⟩
    filterLoopH al.1 al.2 rest

/-- Python `filter` over the heap (kadro.py lines 93-104). -/
def filterH (h : Heap) (fr : FrameR) (preds : List (Table → List Bool)) :
    Heap × FrameR :=
  let al := allocH h (readH h fr.dfA)
  let lp := filterLoopH al.1 al.2 preds
  initH lp.1 lp.2 fr.groups

/-- Python `set_names` over the heap: `df_copy.columns = names` writes the copy in
place; a length mismatch raises before any write. -/
def set_namesH (h : Heap) (fr : FrameR) (names : List String) :
    Heap × Option FrameR :=
  let al := allocH h (readH h fr.dfA)
  let t := readH al.1 al.2
  if names.length = t.header.length then
    let fin := initH (writeH al.1 al.2 ⟨names, t.rows⟩) al.2 fr.groups
    (fin.1, some fin.2)
  else (al.1, none)

/-- Python `select` over the heap: `df_copy = self.df.copy()`, then `df_copy[columns]`
allocates the restriction (or raises), which the new frame copies again. -/
def selectH (h : Heap) (fr : FrameR) (cols : List String) :
    Heap × Option FrameR :=
  let al := allocH h (readH h fr.dfA)
  let t := readH al.1 al.2
  if cols.all (fun c => t.header.contains c) then
    let al2 := allocH al.1 (restrictCols t cols)
    let fin := initH al2.1 al2.2 fr.groups
    (fin.1, some fin.2)
  else (al.1, none)

/-- Python `drop` over the heap (kadro.py lines 143-153). -/
def dropH (h : Heap) (fr : FrameR) (cols : List String) : Heap × FrameR :=
  let al := allocH h (readH h fr.dfA)
  let t := readH al.1 al.2
  let al2 := allocH al.1 (restrictCols t (t.header.filter (fun c => !(cols.contains c))))
  initH al2.1 al2.2 fr.groups

/-- Python `sort` over the heap: `sort_values` allocates the sorted table (or
raises on an unknown column). -/
def sortH (h : Heap) (fr : FrameR) (cols : List String) (ascending : Bool) :
    Heap × Option FrameR :=
  let al := allocH h (readH h fr.dfA)
  let t := readH al.1 al.2
  if (fr.groups ++ cols).all (fun c => t.header.contains c) then
    let al2 := allocH al.1
      ⟨t.header,
        List.insertionSort (fun p q => rowLeP t (fr.groups ++ cols) ascending p.2 q.2) t.rows⟩
    let fin := initH al2.1 al2.2 fr.groups
    (fin.1, some fin.2)
  else (al.1, none)

/-- Python `group_by` over the heap: validate against the columns of the receiver, then
copy it into the new frame; the raise happens before any allocation. -/
def group_byH (h : Heap) (fr : FrameR) (args : List String) :
    Heap × Option FrameR :=
  let t := readH h fr.dfA
  if args.any (fun c => !(t.header.contains c)) then (h, none)
  else
    let al := allocH h t
    let fin := initH al.1 al.2 args
    (fin.1, some fin.2)

/-- Python `head` over the heap: `self.df.copy().head(n)` allocates twice. -/
def headH (h : Heap) (fr : FrameR) (n : Nat) : Heap × FrameR :=
  let al := allocH h (readH h fr.dfA)
  let t := readH al.1 al.2
  let al2 := allocH al.1 ⟨t.header, t.rows.take n⟩
  initH al2.1 al2.2 fr.groups

/-- Python `left_join` over the heap: both inputs are copied, `pd.merge` allocates
the result; a failed key check raises before any allocation. -/
def left_joinH (h : Heap) (fr other : FrameR) (bys : Option (List String)) :
    Heap × Option FrameR :=
  let a := readH h fr.dfA
  let b := readH h other.dfA
  match check_join_params a b bys with
  | .error _ => (h, none)
  | .ok _ =>
    let al := allocH h a
    let al2 := allocH al.1 b
    let al3 := allocH al2.1
      (mergeTables (readH al2.1 al.2) (readH al2.1 al2.2) (resolveKeys a b bys) .left)
    let fin := initH al3.1 al3.2 fr.groups
    (fin.1, some fin.2)

/-! ## Concrete example data -/

/-- A two-row table with columns id, v. -/
def tA : Table := ⟨["id", "v"], [(0, [some 1, some 10]), (1, [some 2, some 20])]⟩

/-- Frame over `tA`, grouped by id. -/
def frA : Frame := Frame.init tA ["id"]

/-- A one-row table with columns id, w. -/
def tB : Table := ⟨["id", "w"], [(0, [some 1, some 100])]⟩

/-- Frame over `tB`, ungrouped. -/
def frB : Frame := Frame.init tB []

/-- The merged frame produced by joining `frA` with `frB` on id. -/
def frAB : Frame :=
  ⟨⟨["id", "v", "w"], [(0, [some 1, some 10, some 100]), (1, [some 2, some 20, none])]⟩,
    ["id"]⟩

/-- A one-row table with columns a, b. -/
def tC2 : Table := ⟨["a", "b"], [(0, [some 1, some 2])]⟩

/-- A table with one group (g = 1) of two rows. -/
def tC3 : Table := ⟨["g", "x"], [(0, [some 1, some 10]), (1, [some 1, some 20])]⟩

/-- Frame over `tC3`, grouped by g. -/
def frC3 : Frame := Frame.init tC3 ["g"]

/-- A transform returning a series shorter than its partition: only the
x value of its first row, labelled by that row. -/
def fC3 : Table → Series := fun t => (t.rows.take 1).map (fun p => (p.1, cellOf t p.2 "x"))

/-- A table whose second row has a missing group key. -/
def tC5 : Table := ⟨["id", "x"], [(0, [some 1, some 10]), (1, [none, some 20])]⟩

/-- Frame over `tC5`, grouped by id. -/
def frC5 : Frame := Frame.init tC5 ["id"]

/-- A scalar reducer: the first x value of the partition. -/
def redC5 : Table → Cell := fun t => cellOf t ((t.rows.map Prod.snd).getD 0 []) "x"

/-- An aligned transform: one value per row, labelled by that row. -/
def gAligned : Table → Series := fun t => t.rows.map (fun p => (p.1, some 9))

/-- A table with two groups, out of key order. -/
def tS : Table := ⟨["g", "x"], [(0, [some 2, some 1]), (1, [some 1, some 5]), (2, [some 2, some 7])]⟩

/-- Frame over `tS`, grouped by g. -/
def frS : Frame := Frame.init tS ["g"]

/-! ## Helper lemmas -/

lemma labelsOk_init (t : Table) (g : List String) : labelsOk (Frame.init t g) := by
  simp [labelsOk, Frame.init, Table.labels, Table.nrows, List.enum_map_fst,
    List.enum_length, List.length_map]

lemma contains_iff {l : List String} {a : String} : l.contains a = true ↔ a ∈ l :=
  List.elem_iff

lemma contains_false_of_not_mem {l : List String} {a : String} (h : a ∉ l) :
    l.contains a = false := by
  cases hc : l.contains a
  · rfl
  · exact absurd (contains_iff.mp hc) h

lemma init_rows_map_snd (t : Table) (g : List String) :
    (Frame.init t g).df.rows.map Prod.snd = t.rows.map Prod.snd := by
  simp only [Frame.init]
  rw [List.enum_map_snd]

lemma rows_map_proj {α : Type} (t : Table) (g : List String) (f : Row → α) :
    (Frame.init t g).df.rows.map (fun p => f p.2) = t.rows.map (fun p => f p.2) := by
  have h2 : (fun p : Nat × Row => f p.2) = f ∘ Prod.snd := rfl
  rw [h2, ← List.map_map, ← List.map_map, init_rows_map_snd]

lemma init_nrows (t : Table) (g : List String) :
    (Frame.init t g).df.nrows = t.nrows := by
  simp [Frame.init, Table.nrows, List.enum_length, List.length_map]

lemma init_groups (t : Table) (g : List String) : (Frame.init t g).groups = g := rfl

/-! ## Claim C10 -/

/-- Claim C10: every frame ever constructed — at load time or by filter,
sort, sample_n, head, tail or slice — has index labels 0 .. nrows-1; any
caller-provided labelling is discarded by the constructor. -/
theorem C10_index_reset (t : Table) (g : List String) (fr fr2 : Frame)
    (preds : List (Table → List Bool)) (cols : List String) (asc : Bool)
    (posns rowIds : List Nat) (n m : Nat)
    (hsort : fr.sort cols asc = .ok fr2) :
    labelsOk (Frame.init t g) ∧
    labelsOk (fr.filter preds) ∧
    labelsOk fr2 ∧
    labelsOk (fr.sample_n rowIds) ∧
    labelsOk (fr.head n) ∧
    labelsOk (fr.tail m) ∧
    labelsOk (fr.slice posns) := by
  have hs : labelsOk fr2 := by
    unfold Frame.sort at hsort
    split at hsort
    · injection hsort with hsort
      rw [← hsort]
      exact labelsOk_init _ _
    · exact Except.noConfusion hsort
  exact ⟨labelsOk_init _ _, labelsOk_init _ _, hs, labelsOk_init _ _,
    labelsOk_init _ _, labelsOk_init _ _, labelsOk_init _ _⟩

/-- Witness for C10 at concrete inputs. -/
theorem C10_index_reset_witness :
    labelsOk (Frame.init tA []) ∧
    labelsOk (frA.filter []) ∧
    labelsOk frA ∧
    labelsOk (frA.sample_n [0]) ∧
    labelsOk (frA.head 1) ∧
    labelsOk (frA.tail 1) ∧
    labelsOk (frA.slice [1]) :=
  C10_index_reset tA [] frA frA [] [] true [1] [0] 1 1 rfl

/-! ## Claim C1 -/

/-- Claim C1 counterexample: joining a grouped frame returns a frame whose
GroupSpec is that of the receiver, not the empty one — `left_join` and
`inner_join` both return `Frame(new, self.groups[:])`. -/
theorem C1_join_groups_counterexample :
    (frA.left_join frB none).map Frame.groups = .ok ["id"] ∧
    (frA.inner_join frB none).map Frame.groups = .ok ["id"] ∧
    (["id"] : List String) ≠ [] :=
  ⟨rfl, rfl, by decide⟩

/-- Claim C1 as amended: on success, `left_join` and `inner_join` return a
frame whose GroupSpec equals the GroupSpec of the receiver (it is carried over,
not emptied; the groups of the right frame are ignored). -/
theorem C1_join_groups_carried (a b : Frame) (bys : Option (List String))
    (fr2 : Frame)
    (h : a.left_join b bys = .ok fr2 ∨ a.inner_join b bys = .ok fr2) :
    fr2.groups = a.groups := by
  cases h with
  | inl h =>
    unfold Frame.left_join at h
    split at h
    · exact Except.noConfusion h
    · injection h with h
      rw [← h]
      rfl
  | inr h =>
    unfold Frame.inner_join at h
    split at h
    · exact Except.noConfusion h
    · injection h with h
      rw [← h]
      rfl

/-- Witness for the amended C1 at concrete inputs. -/
theorem C1_join_groups_carried_witness :
    frA.left_join frB none = .ok frAB ∧ frAB.groups = frA.groups :=
  ⟨rfl, C1_join_groups_carried frA frB none frAB (.inl rfl)⟩

/-! ## Claim C2 -/

/-- Claim C2 counterexample: `select` succeeds while silently invalidating
the GroupSpec — selecting only column b from a frame grouped by column a
yields a frame whose group column a is no longer a table column. -/
theorem C2_invariant_counterexample :
    (Frame.init tC2 []).group_by ["a"] = .ok (Frame.init tC2 ["a"]) ∧
    ((Frame.init tC2 ["a"]).select ["b"]).map groupsValid = .ok false :=
  ⟨rfl, rfl⟩

/-- Claim C2 as amended: `select` preserves the invariant exactly when the
selected columns include every group column, and `drop` preserves it when
no group column is dropped; dropping or de-selecting a group column
violates it (see the counterexample). -/
theorem C2_subset_preserves_invariant :
    (∀ (fr : Frame) (cols : List String) (fr2 : Frame),
      (∀ g ∈ fr.groups, g ∈ cols) → fr.select cols = .ok fr2 →
      groupsValid fr2 = true) ∧
    (∀ (fr : Frame) (cols : List String),
      groupsValid fr = true → (∀ g ∈ fr.groups, g ∉ cols) →
      groupsValid (fr.drop cols) = true) := by
  constructor
  · intro fr cols fr2 hsub hsel
    unfold Frame.select at hsel
    split at hsel
    · injection hsel with hsel
      rw [← hsel]
      simp only [groupsValid, Frame.init, restrictCols, List.all_eq_true]
      intro g hg
      exact contains_iff.mpr (hsub g hg)
    · exact Except.noConfusion hsel
  · intro fr cols hval hdis
    simp only [groupsValid, List.all_eq_true] at hval ⊢
    intro g hg
    simp only [Frame.drop, Frame.init, restrictCols]
    refine contains_iff.mpr (List.mem_filter.mpr ⟨contains_iff.mp (hval g hg), ?_⟩)
    rw [contains_false_of_not_mem (hdis g hg)]
    rfl

/-- Witness for the amended C2 at concrete inputs. -/
theorem C2_subset_preserves_invariant_witness :
    groupsValid (Frame.init tC2 ["a"]) = true ∧
    groupsValid ((Frame.init tC2 ["a"]).drop ["b"]) = true :=
  ⟨by decide,
    C2_subset_preserves_invariant.2 (Frame.init tC2 ["a"]) ["b"] (by decide)
      (by decide)⟩

/-! ## Comparator lemmas -/

lemma cellLe_total (a b : Cell) : (cellLe a b || cellLe b a) = true := by
  cases a <;> cases b <;> simp [cellLe] <;> omega

lemma cellLe_trans (a b c : Cell) (h1 : cellLe a b = true) (h2 : cellLe b c = true) :
    cellLe a c = true := by
  cases a <;> cases b <;> cases c <;> simp [cellLe] at h1 h2 ⊢ <;> omega

lemma cellLe_antisymm (a b : Cell) (h1 : cellLe a b = true) (h2 : cellLe b a = true) :
    a = b := by
  cases a <;> cases b <;> simp [cellLe] at h1 h2 ⊢ <;> omega

lemma lexLe_trans (x : List Cell) : ∀ y z : List Cell,
    lexLe x y = true → lexLe y z = true → lexLe x z = true := by
  induction x with
  | nil => intro y z h1 h2; rfl
  | cons a as ih =>
    intro y z h1 h2
    cases y with
    | nil => exact absurd h1 (by simp [lexLe])
    | cons b bs =>
      cases z with
      | nil => exact absurd h2 (by simp [lexLe])
      | cons c cs =>
        simp only [lexLe] at h1 h2 ⊢
        by_cases hab : a = b
        · subst hab
          rw [if_pos rfl] at h1
          by_cases hac : a = c
          · subst hac
            rw [if_pos rfl] at h2 ⊢
            exact ih bs cs h1 h2
          · rw [if_neg hac] at h2 ⊢
            exact h2
        · rw [if_neg hab] at h1
          by_cases hbc : b = c
          · subst hbc
            rw [if_neg hab]
            exact h1
          · rw [if_neg hbc] at h2
            by_cases hac : a = c
            · subst hac
              exact absurd (cellLe_antisymm a b h1 h2) hab
            · rw [if_neg hac]
              exact cellLe_trans a b c h1 h2

lemma lexLe_total (x : List Cell) : ∀ y : List Cell,
    (lexLe x y || lexLe y x) = true := by
  induction x with
  | nil => intro y; rfl
  | cons a as ih =>
    intro y
    cases y with
    | nil => simp [lexLe]
    | cons b bs =>
      simp only [lexLe]
      by_cases hab : a = b
      · subst hab
        rw [if_pos rfl, if_pos rfl]
        exact ih bs
      · rw [if_neg hab, if_neg (Ne.symm hab)]
        exact cellLe_total a b

lemma rowLe_trans (t : Table) (cols : List String) (asc : Bool) (r1 r2 r3 : Row)
    (h1 : rowLe t cols asc r1 r2 = true) (h2 : rowLe t cols asc r2 r3 = true) :
    rowLe t cols asc r1 r3 = true := by
  cases asc <;> simp only [rowLe, if_pos, if_neg, Bool.false_eq_true, ite_false,
    ite_true] at h1 h2 ⊢
  · exact lexLe_trans _ _ _ h2 h1
  · exact lexLe_trans _ _ _ h1 h2

lemma rowLe_total (t : Table) (cols : List String) (asc : Bool) (r1 r2 : Row) :
    (rowLe t cols asc r1 r2 || rowLe t cols asc r2 r1) = true := by
  cases asc <;> simp only [rowLe, Bool.false_eq_true, ite_false, ite_true]
  · exact lexLe_total _ _
  · exact lexLe_total _ _

instance : IsTrans (List Cell) lexLeP :=
  ⟨fun a b c h1 h2 => lexLe_trans a b c h1 h2⟩

instance : IsTotal (List Cell) lexLeP := by
  refine ⟨fun a b => ?_⟩
  have h := lexLe_total a b
  rcases Bool.or_eq_true_iff.mp h with h1 | h1
  · exact Or.inl h1
  · exact Or.inr h1

instance (t : Table) (cols : List String) (asc : Bool) : IsTrans Row (rowLeP t cols asc) :=
  ⟨fun r1 r2 r3 h1 h2 => rowLe_trans t cols asc r1 r2 r3 h1 h2⟩

instance (t : Table) (cols : List String) (asc : Bool) : IsTotal Row (rowLeP t cols asc) := by
  refine ⟨fun r1 r2 => ?_⟩
  have h := rowLe_total t cols asc r1 r2
  rcases Bool.or_eq_true_iff.mp h with h1 | h1
  · exact Or.inl h1
  · exact Or.inr h1

/-! ## Claim C4 -/

/-- Claim C4: `group_by` validates its arguments against the table columns
at the call itself — a missing name makes the call raise there (before any
partitioning can happen), and when all names are present the call returns
the regrouped frame normally. -/
theorem C4_group_by_validation (fr : Frame) (args : List String) :
    ((∃ c ∈ args, c ∉ fr.df.header) → ∃ e, fr.group_by args = .error e) ∧
    ((∀ c ∈ args, c ∈ fr.df.header) → fr.group_by args = .ok (Frame.init fr.df args)) := by
  constructor
  · rintro ⟨c, hc, hnc⟩
    refine ⟨"Wrong column name in .group_by method: does not exist.", ?_⟩
    unfold Frame.group_by
    rw [if_pos]
    rw [List.any_eq_true]
    refine ⟨c, hc, ?_⟩
    rw [contains_false_of_not_mem hnc]
    rfl
  · intro hall
    unfold Frame.group_by
    rw [if_neg]
    intro h
    obtain ⟨c, hc, hb⟩ := List.any_eq_true.mp h
    rw [contains_iff.mpr (hall c hc)] at hb
    exact Bool.noConfusion hb

/-- Witness for C4 at concrete inputs. -/
theorem C4_group_by_validation_witness :
    (∃ e, (Frame.init tC2 []).group_by ["zzz"] = .error e) ∧
    (Frame.init tC2 []).group_by ["a"] = .ok (Frame.init tC2 ["a"]) :=
  ⟨(C4_group_by_validation (Frame.init tC2 []) ["zzz"]).1 ⟨"zzz", by decide, by decide⟩,
    (C4_group_by_validation (Frame.init tC2 []) ["a"]).2 (by decide)⟩

/-! ## Claim C6 -/

lemma commonCols_mem {a b : Table} {c : String} (h : c ∈ commonCols a b) :
    c ∈ a.header ∧ c ∈ b.header := by
  have h2 := List.mem_filter.mp h
  exact ⟨h2.1, contains_iff.mp h2.2⟩

lemma check_join_params_common_ok (a b : Table) (h : commonCols a b ≠ []) :
    check_join_params a b none = .ok () ∧
    check_join_params a b (some (commonCols a b)) = .ok () := by
  have hie : (commonCols a b).isEmpty = false := List.isEmpty_eq_false.mpr h
  have hany : (commonCols a b).any
      (fun i => !(a.header.contains i) || !(b.header.contains i)) = false := by
    rw [List.any_eq_false]
    intro x hx
    obtain ⟨h1, h2⟩ := commonCols_mem hx
    rw [contains_iff.mpr h1, contains_iff.mpr h2]
    simp
  constructor
  · simp only [check_join_params, hie, Bool.false_eq_true, if_false, hany]
  · simp only [check_join_params, hie, Bool.false_eq_true, if_false, ite_self, hany]

/-- Claim C6: omitting `by` is the same as passing the intersection of the
two column-name lists explicitly, for both joins, whenever the tables share
a column. -/
theorem C6_default_by_is_intersection (a b : Frame) (h : commonCols a.df b.df ≠ []) :
    a.left_join b none = a.left_join b (some (commonCols a.df b.df)) ∧
    a.inner_join b none = a.inner_join b (some (commonCols a.df b.df)) := by
  obtain ⟨h1, h2⟩ := check_join_params_common_ok a.df b.df h
  constructor
  · unfold Frame.left_join
    rw [h1, h2]
    rfl
  · unfold Frame.inner_join
    rw [h1, h2]
    rfl

/-- Witness for C6 at concrete inputs. -/
theorem C6_default_by_is_intersection_witness :
    commonCols frA.df frB.df ≠ [] ∧
    frA.left_join frB none = frA.left_join frB (some (commonCols frA.df frB.df)) :=
  ⟨by decide, (C6_default_by_is_intersection frA frB (by decide)).1⟩

/-! ## Claim C9 -/

/-- Claim C9: with a non-empty GroupSpec, `sort(cols)` orders the rows by
the group columns first and the requested columns second — the result is a
permutation of the rows, pairwise ordered by the key drawn from
`groups ++ cols` — and the GroupSpec is carried forward unchanged. -/
theorem C9_sort_by_groups_first (fr : Frame) (cols : List String) (asc : Bool)
    (fr2 : Frame) (hg : fr.groups ≠ []) (hs : fr.sort cols asc = .ok fr2) :
    fr2.groups = fr.groups ∧
    (fr2.df.rows.map Prod.snd).Perm (fr.df.rows.map Prod.snd) ∧
    List.Pairwise (rowLeP fr.df (fr.groups ++ cols) asc)
      (fr2.df.rows.map Prod.snd) := by
  unfold Frame.sort at hs
  split at hs
  · injection hs with hs
    rw [← hs]
    rw [init_rows_map_snd]
    refine ⟨rfl, ?_, ?_⟩
    · exact (List.perm_insertionSort _ _).map Prod.snd
    · haveI : IsTrans (Nat × Row)
          (fun p q => rowLeP fr.df (fr.groups ++ cols) asc p.2 q.2) :=
        ⟨fun p q r hpq hqr => rowLe_trans _ _ _ _ _ _ hpq hqr⟩
      haveI : IsTotal (Nat × Row)
          (fun p q => rowLeP fr.df (fr.groups ++ cols) asc p.2 q.2) := by
        refine ⟨fun p q => ?_⟩
        rcases Bool.or_eq_true_iff.mp (rowLe_total fr.df (fr.groups ++ cols) asc p.2 q.2)
          with h1 | h1
        · exact Or.inl h1
        · exact Or.inr h1
      have hsorted := List.sorted_insertionSort
        (fun p q => rowLeP fr.df (fr.groups ++ cols) asc p.2 q.2) fr.df.rows
      exact List.Pairwise.map Prod.snd (fun p q hpq => hpq) hsorted
  · exact Except.noConfusion hs

/-- The sorted version of `frS`. -/
def frSsorted : Frame :=
  ⟨⟨["g", "x"], [(0, [some 1, some 5]), (1, [some 2, some 1]), (2, [some 2, some 7])]⟩,
    ["g"]⟩

/-- Witness for C9 at concrete inputs. -/
theorem C9_sort_by_groups_first_witness :
    frSsorted.groups = frS.groups ∧
    (frSsorted.df.rows.map Prod.snd).Perm (frS.df.rows.map Prod.snd) ∧
    List.Pairwise (rowLeP frS.df (frS.groups ++ ["x"]) true)
      (frSsorted.df.rows.map Prod.snd) :=
  C9_sort_by_groups_first frS ["x"] true frSsorted (by decide) rfl

/-! ## Claim C5 -/

lemma distinctKeys_length (t : Table) (G : List String) :
    (distinctKeys t G).length = (presentKeyTuples t G).length :=
  (List.perm_insertionSort lexLeP _).length_eq

lemma distinctKeys_nodup (t : Table) (G : List String) : (distinctKeys t G).Nodup :=
  ((List.perm_insertionSort lexLeP _).nodup_iff).mpr (List.nodup_dedup _)

lemma distinctKeys_sorted (t : Table) (G : List String) :
    List.Pairwise lexLeP (distinctKeys t G) :=
  List.sorted_insertionSort lexLeP _

lemma mem_taggedKeys {t : Table} {G : List String} {p : Nat × List Cell}
    (hp : p ∈ taggedKeys t G) :
    ∃ q ∈ t.rows, q.1 = p.1 ∧ keyOf t G q.2 = p.2 ∧ p.2.all Option.isSome = true := by
  obtain ⟨q, hq, hfq⟩ := List.mem_filterMap.mp hp
  simp only at hfq
  split at hfq
  · injection hfq with hfq
    rw [← hfq]
    exact ⟨q, hq, rfl, rfl, by assumption⟩
  · exact Option.noConfusion hfq

lemma mem_distinctKeys_length {t : Table} {G : List String} {k : List Cell}
    (hk : k ∈ distinctKeys t G) : k.length = G.length := by
  unfold distinctKeys at hk
  rw [(List.perm_insertionSort lexLeP _).mem_iff, List.mem_dedup] at hk
  obtain ⟨p, hp, hpk⟩ := List.mem_map.mp hk
  obtain ⟨q, _, _, hkey, _⟩ := mem_taggedKeys hp
  rw [← hpk, ← hkey, keyOf, List.length_map]

/-- Claim C5 counterexample: a missing value in a key column makes `agg`
emit fewer rows than there are distinct key tuples — pandas `groupby` drops
the rows whose key contains a missing value. -/
theorem C5_agg_counterexample :
    (frC5.agg [("m", redC5)]).df.nrows = 1 ∧
    (specDistinctKeyTuples frC5.df frC5.groups).length = 2 :=
  ⟨rfl, rfl⟩

/-- Claim C5 as amended: for a non-empty GroupSpec, `agg` emits the group
columns followed by the reducer columns in declaration order, exactly one
row per distinct key tuple realised by the partitioner (rows whose key
contains a missing value are dropped), with the key tuples pairwise in
ascending lexicographic order and no key tuple repeated. -/
theorem C5_agg_shape (fr : Frame) (kwargs : List (String × (Table → Cell)))
    (hg : fr.groups ≠ []) :
    (fr.agg kwargs).df.header = fr.groups ++ kwargs.map Prod.fst ∧
    (fr.agg kwargs).df.nrows = (presentKeyTuples fr.df fr.groups).length ∧
    ((fr.agg kwargs).df.rows.map (fun p => p.2.take fr.groups.length)).Nodup ∧
    List.Pairwise lexLeP
      ((fr.agg kwargs).df.rows.map (fun p => p.2.take fr.groups.length)) := by
  have hne : ¬ fr.groups.isEmpty = true := by
    rw [List.isEmpty_iff]
    exact hg
  unfold Frame.agg
  rw [if_neg hne]
  have hkey : (Frame.init
        ⟨fr.groups ++ kwargs.map Prod.fst,
          ((distinctKeys fr.df fr.groups).map (fun k =>
            k ++ kwargs.map (fun q =>
              q.2 (takeLabels fr.df (labelsOfKey fr.df fr.groups k))))).enum⟩
        []).df.rows.map (fun p => p.2.take fr.groups.length)
      = distinctKeys fr.df fr.groups := by
    rw [rows_map_proj]
    have h1 : ∀ (l : List Row) (g : Row → Row),
        l.enum.map (fun p => g p.2) = l.map g := by
      intro l g
      have h2 : (fun p : Nat × Row => g p.2) = g ∘ Prod.snd := rfl
      rw [h2, ← List.map_map, List.enum_map_snd]
    rw [h1, List.map_map]
    have h3 : ∀ k ∈ distinctKeys fr.df fr.groups,
        ((fun r : Row => r.take fr.groups.length) ∘ (fun k2 => k2 ++ kwargs.map
          (fun q => q.2 (takeLabels fr.df (labelsOfKey fr.df fr.groups k2))))) k = id k := by
      intro k hk
      simp only [Function.comp, id]
      rw [← mem_distinctKeys_length hk, List.take_left]
    rw [List.map_congr_left h3, List.map_id]
  refine ⟨rfl, ?_, ?_, ?_⟩
  · rw [init_nrows]
    simp only [Table.nrows, List.enum_length, List.length_map]
    exact distinctKeys_length fr.df fr.groups
  · rw [hkey]
    exact distinctKeys_nodup fr.df fr.groups
  · rw [hkey]
    exact distinctKeys_sorted fr.df fr.groups

/-! ## Claim C3 -/

/-- Claim C3 counterexample: a transform whose returned series covers only
one row of a two-row partition does not make grouped `mutate` fail — the
call returns normally and the second row of the new column holds a missing
value (pandas aligns the assigned series by index label). -/
theorem C3_no_mismatch_error_counterexample :
    frC3.mutate [("c", fC3)] =
      .ok ⟨⟨["g", "x", "c"],
        [(0, [some 1, some 10, some 10]), (1, [some 1, some 20, none])]⟩, ["g"]⟩ :=
  rfl

/-- Claim C3 as amended: grouped `mutate` performs no length validation at
all.  Whenever the concatenated per-partition series has no duplicate
labels the call succeeds, and the new column is filled by label lookup in
that series — a row whose label the series does not cover receives a
missing value. -/
theorem C3_alignment_fills_missing (fr : Frame) (c : String) (f : Table → Series)
    (hg : fr.groups ≠ [])
    (hnd : ((partSeries (partitionLabels fr.df fr.groups) fr.df f).map Prod.fst).Nodup) :
    fr.mutate [(c, f)] =
      .ok (Frame.init
        (setCol fr.df c
          (seriesLookup (partSeries (partitionLabels fr.df fr.groups) fr.df f)))
        fr.groups) := by
  have hie : fr.groups.isEmpty = false := List.isEmpty_eq_false.mpr hg
  unfold Frame.mutate
  rw [if_pos (show (!fr.groups.isEmpty) = true by rw [hie]; rfl)]
  unfold Frame.group_mutate
  have hm : mutCols (partitionLabels fr.df fr.groups) fr.df [(c, f)] =
      .ok (setCol fr.df c
        (seriesLookup (partSeries (partitionLabels fr.df fr.groups) fr.df f))) := by
    simp only [mutCols]
    rw [if_pos hnd]
  rw [hm]

/-- Witness for the amended C3 at concrete inputs. -/
theorem C3_alignment_fills_missing_witness :
    frC3.mutate [("c", fC3)] =
      .ok (Frame.init
        (setCol frC3.df "c"
          (seriesLookup (partSeries (partitionLabels frC3.df frC3.groups) frC3.df fC3)))
        frC3.groups) :=
  C3_alignment_fills_missing frC3 "c" fC3 (by decide) (by decide)

/-! ## Claim C7: supporting lemmas -/

lemma map_fst_preserved {β : Type} (l : List (Nat × Row)) (g : Nat × Row → β) :
    (l.map (fun q => (q.1, g q))).map Prod.fst = l.map Prod.fst := by
  rw [List.map_map]
  rfl

lemma setCol_labels (t : Table) (c : String) (f : Nat → Cell) :
    (setCol t c f).labels = t.labels := by
  unfold setCol
  split
  · exact map_fst_preserved _ _
  · exact map_fst_preserved _ _

lemma setCol_wf {t : Table} (c : String) (f : Nat → Cell) (hwf : t.wf) :
    (setCol t c f).wf := by
  unfold setCol
  split
  · intro p hp
    obtain ⟨q, hq, hpq⟩ := List.mem_map.mp hp
    rw [← hpq]
    simp only [List.length_set]
    exact hwf q hq
  · intro p hp
    obtain ⟨q, hq, hpq⟩ := List.mem_map.mp hp
    rw [← hpq]
    simp only [List.length_append, List.length_cons, List.length_nil]
    rw [hwf q hq]

lemma findIdx?_found {l : List String} {c : String} {p : Nat}
    (h : List.findIdx? (fun x => x == c) l = some p) :
    ∃ hp : p < l.length, l[p] = c := by
  obtain ⟨hlt, hidx⟩ := List.findIdx?_eq_some_iff_findIdx_eq.mp h
  subst hidx
  exact ⟨hlt, eq_of_beq (@List.findIdx_getElem _ _ _ hlt)⟩

lemma getD_set_ne {l : Row} {i j : Nat} {v d : Cell} (h : i ≠ j) :
    (l.set i v).getD j d = l.getD j d := by
  rw [List.getD_eq_getElem?_getD, List.getD_eq_getElem?_getD, List.getElem?_set_ne h]

lemma setCol_colVals_ne {t : Table} {c c2 : String} {f : Nat → Cell}
    (hwf : t.wf) (hne : c2 ≠ c) :
    (setCol t c f).colVals c2 = t.colVals c2 := by
  have hbeq : (c == c2) = false := by
    cases hb : c == c2
    · rfl
    · exact absurd (eq_of_beq hb).symm hne
  unfold setCol
  cases hidx : t.header.findIdx? (fun h2 => h2 == c) with
  | some p =>
    obtain ⟨hp, hcp⟩ := findIdx?_found hidx
    simp only [Table.colVals, List.map_map]
    apply List.map_congr_left
    intro q _
    simp only [Function.comp]
    unfold cellOf
    simp only
    cases hidx2 : t.header.findIdx? (fun h2 => h2 == c2) with
    | some p2 =>
      obtain ⟨hp2, hcp2⟩ := findIdx?_found hidx2
      have hpp : p ≠ p2 := by
        intro hcon
        apply hne
        subst hcon
        rw [← hcp2]
        exact hcp
      exact getD_set_ne hpp
    | none => rfl
  | none =>
    simp only [Table.colVals, List.map_map]
    apply List.map_congr_left
    intro q hq
    simp only [Function.comp]
    unfold cellOf
    simp only
    have hone : List.findIdx? (fun h2 => h2 == c2) [c] = none := by
      simp [List.findIdx?, hbeq]
    have hfi : (t.header ++ [c]).findIdx? (fun h2 => h2 == c2)
        = t.header.findIdx? (fun h2 => h2 == c2) := by
      rw [List.findIdx?_append, hone]
      simp
    rw [hfi]
    cases hidx2 : t.header.findIdx? (fun h2 => h2 == c2) with
    | some p2 =>
      obtain ⟨hp2, hcp2⟩ := findIdx?_found hidx2
      exact List.getD_append _ _ _ _ (by rw [hwf q hq]; exact hp2)
    | none => rfl

lemma takeLabels_labels (t : Table) (labs : List Nat) :
    (takeLabels t labs).labels = t.labels.filter (fun i => labs.contains i) := by
  unfold takeLabels Table.labels
  simp only
  rw [List.filter_map]
  rfl

lemma filterMap_sublist_map {α β : Type} (f : α → Option β) (g : α → β)
    (hf : ∀ a b, f a = some b → b = g a) :
    ∀ l : List α, (l.filterMap f).Sublist (l.map g) := by
  intro l
  induction l with
  | nil => simp
  | cons x xs ih =>
    rw [List.filterMap_cons, List.map_cons]
    cases hfx : f x with
    | none => exact ih.cons _
    | some b =>
      rw [hf x b hfx]
      exact ih.cons₂ _

lemma taggedKeys_fst_sublist (t : Table) (G : List String) :
    ((taggedKeys t G).map Prod.fst).Sublist t.labels := by
  unfold taggedKeys Table.labels
  rw [List.map_filterMap]
  apply filterMap_sublist_map
  intro a b hab
  simp only at hab
  split at hab
  · injection hab with hab
    exact hab.symm
  · exact Option.noConfusion hab

lemma taggedKeys_fst_nodup {t : Table} {G : List String} (h : t.labels.Nodup) :
    ((taggedKeys t G).map Prod.fst).Nodup :=
  List.Nodup.sublist (taggedKeys_fst_sublist t G) h

lemma nodup_fst_unique {β : Type} : ∀ {l : List (Nat × β)},
    (l.map Prod.fst).Nodup →
    ∀ {i : Nat} {a b : β}, (i, a) ∈ l → (i, b) ∈ l → a = b := by
  intro l
  induction l with
  | nil =>
    intro _ i a b ha
    exact absurd ha (List.not_mem_nil _)
  | cons x xs ih =>
    intro hnd i a b ha hb
    rw [List.map_cons, List.nodup_cons] at hnd
    rcases List.mem_cons.mp ha with ha1 | ha1 <;> rcases List.mem_cons.mp hb with hb1 | hb1
    · rw [← ha1] at hb1
      injection hb1 with _ hab
      exact hab.symm
    · exfalso
      apply hnd.1
      have hx1 : x.1 = i := by rw [← ha1]
      rw [hx1]
      exact List.mem_map.mpr ⟨(i, b), hb1, rfl⟩
    · exfalso
      apply hnd.1
      have hx1 : x.1 = i := by rw [← hb1]
      rw [hx1]
      exact List.mem_map.mpr ⟨(i, a), ha1, rfl⟩
    · exact ih hnd.2 ha1 hb1

lemma mem_labelsOfKey {t : Table} {G : List String} {k : List Cell} {i : Nat} :
    i ∈ labelsOfKey t G k ↔ (i, k) ∈ taggedKeys t G := by
  unfold labelsOfKey
  rw [List.mem_filterMap]
  constructor
  · rintro ⟨p, hp, hpi⟩
    split at hpi
    · injection hpi with hpi
      have hpk : p = (i, k) := by
        rw [Prod.ext_iff]
        exact ⟨hpi, by assumption⟩
      rw [← hpk]
      exact hp
    · exact Option.noConfusion hpi
  · intro hik
    exact ⟨(i, k), hik, by simp⟩

lemma labelsOfKey_nodup {t : Table} {G : List String} (h : t.labels.Nodup)
    (k : List Cell) : (labelsOfKey t G k).Nodup := by
  refine List.Nodup.sublist ?_ (@taggedKeys_fst_nodup t G h)
  unfold labelsOfKey
  apply filterMap_sublist_map
  intro a b hab
  split at hab
  · injection hab with hab
    exact hab.symm
  · exact Option.noConfusion hab

lemma labelsOfKey_disjoint {t : Table} {G : List String} (h : t.labels.Nodup)
    {k1 k2 : List Cell} (hne : k1 ≠ k2) :
    List.Disjoint (labelsOfKey t G k1) (labelsOfKey t G k2) := by
  intro i h1 h2
  exact hne (nodup_fst_unique (taggedKeys_fst_nodup h)
    (mem_labelsOfKey.mp h1) (mem_labelsOfKey.mp h2))

lemma partitionLabels_pairwise {t : Table} {G : List String} (h : t.labels.Nodup) :
    (partitionLabels t G).Pairwise List.Disjoint := by
  unfold partitionLabels
  exact List.Pairwise.map _ (fun k1 k2 hne => labelsOfKey_disjoint h hne)
    (distinctKeys_nodup t G)

lemma partSeries_fst_nodup {t : Table} {parts : List (List Nat)} {f : Table → Series}
    (hnd : t.labels.Nodup) (hdisj : parts.Pairwise List.Disjoint)
    (hali : ∀ t2 : Table, (f t2).map Prod.fst = t2.labels) :
    ((partSeries parts t f).map Prod.fst).Nodup := by
  unfold partSeries
  have hEq : (parts.map (fun labs => f (takeLabels t labs))).map (List.map Prod.fst)
      = parts.map (fun labs => t.labels.filter (fun i => labs.contains i)) := by
    rw [List.map_map]
    apply List.map_congr_left
    intro labs _
    simp only [Function.comp]
    rw [hali, takeLabels_labels]
  rw [List.map_flatten, hEq, List.nodup_flatten]
  constructor
  · intro l hl
    obtain ⟨labs, _, hfl⟩ := List.mem_map.mp hl
    rw [← hfl]
    exact List.Nodup.filter _ hnd
  · refine List.Pairwise.map _ ?_ hdisj
    intro l1 l2 hd i h1 h2
    exact hd (List.elem_iff.mp (List.mem_filter.mp h1).2)
      (List.elem_iff.mp (List.mem_filter.mp h2).2)

lemma init_colVals (t : Table) (g : List String) (c : String) :
    (Frame.init t g).df.colVals c = t.colVals c :=
  rows_map_proj t g (fun r => cellOf t r c)

lemma mutCols_spec {parts : List (List Nat)}
    (hdisj : parts.Pairwise List.Disjoint) :
    ∀ (kwargs : List (String × (Table → Series))) (acc : Table),
    alignedTransforms kwargs → acc.wf → acc.labels.Nodup →
    ∃ u : Table, mutCols parts acc kwargs = .ok u ∧ u.labels = acc.labels ∧ u.wf ∧
      ∀ c2, c2 ∉ kwargs.map Prod.fst → u.colVals c2 = acc.colVals c2 := by
  intro kwargs
  induction kwargs with
  | nil =>
    intro acc _ hwf hnd
    exact ⟨acc, rfl, rfl, hwf, fun c2 _ => rfl⟩
  | cons q rest ih =>
    intro acc hali hwf hnd
    obtain ⟨c, f⟩ := q
    have haliF : ∀ t2 : Table, (f t2).map Prod.fst = t2.labels :=
      fun t2 => hali (c, f) (List.mem_cons_self _ _) t2
    have haliR : alignedTransforms rest :=
      fun p hp t2 => hali p (List.mem_cons_of_mem _ hp) t2
    have hs : ((partSeries parts acc f).map Prod.fst).Nodup :=
      partSeries_fst_nodup hnd hdisj haliF
    obtain ⟨u, hu, hulab, huwf, hucol⟩ :=
      ih (setCol acc c (seriesLookup (partSeries parts acc f))) haliR
        (setCol_wf _ _ hwf) (by rw [setCol_labels]; exact hnd)
    refine ⟨u, ?_, ?_, huwf, ?_⟩
    · show mutCols parts acc ((c, f) :: rest) = .ok u
      simp only [mutCols]
      rw [if_pos hs]
      exact hu
    · rw [hulab, setCol_labels]
    · intro c2 hc2
      rw [List.map_cons] at hc2
      have hc2c : c2 ≠ c := fun hcc => hc2 (by rw [hcc]; exact List.mem_cons_self _ _)
      have hc2r : c2 ∉ rest.map Prod.fst := fun hcc => hc2 (List.mem_cons_of_mem _ hcc)
      rw [hucol c2 hc2r, setCol_colVals_ne hwf hc2c]

/-- Claim C7: for a table with well-formed rows, distinct labels and a
non-empty GroupSpec, grouped `mutate` with transforms that return one
labelled value per partition row succeeds, keeps the row count, and leaves
every column other than the assigned ones unchanged, value for value in the
original row order. -/
theorem C7_grouped_mutate_preserves_rows (fr : Frame)
    (kwargs : List (String × (Table → Series)))
    (hwf : fr.df.wf) (hnd : fr.df.labels.Nodup) (hg : fr.groups ≠ [])
    (hali : alignedTransforms kwargs) :
    ∃ fr2 : Frame, fr.mutate kwargs = .ok fr2 ∧
      fr2.df.nrows = fr.df.nrows ∧
      ∀ c, c ∉ kwargs.map Prod.fst → fr2.df.colVals c = fr.df.colVals c := by
  have hdisj := @partitionLabels_pairwise fr.df fr.groups hnd
  obtain ⟨u, hu, hulab, _, hucol⟩ := mutCols_spec hdisj kwargs fr.df hali hwf hnd
  refine ⟨Frame.init u fr.groups, ?_, ?_, ?_⟩
  · have hie : fr.groups.isEmpty = false := List.isEmpty_eq_false.mpr hg
    unfold Frame.mutate
    rw [if_pos (show (!fr.groups.isEmpty) = true by rw [hie]; rfl)]
    unfold Frame.group_mutate
    rw [hu]
  · rw [init_nrows]
    have h1 : u.labels.length = fr.df.labels.length := by rw [hulab]
    simpa [Table.labels, Table.nrows, List.length_map] using h1
  · intro c hc
    rw [init_colVals]
    exact hucol c hc

/-- Witness for C7 at concrete inputs. -/
theorem C7_grouped_mutate_preserves_rows_witness :
    ∃ fr2 : Frame, frS.mutate [("c", gAligned)] = .ok fr2 ∧
      fr2.df.nrows = frS.df.nrows ∧
      ∀ c, c ∉ [("c", gAligned)].map Prod.fst → fr2.df.colVals c = frS.df.colVals c :=
  C7_grouped_mutate_preserves_rows frS [("c", gAligned)]
    (by unfold Table.wf; decide) (by decide) (by decide)
    (by
      intro p hp t2
      rw [List.mem_singleton] at hp
      subst hp
      show (t2.rows.map (fun q => (q.1, some 9))).map Prod.fst = t2.labels
      rw [List.map_map]
      rfl)

/-- Witness for the amended C5 at concrete inputs. -/
theorem C5_agg_shape_witness :
    (frC5.agg [("m", redC5)]).df.header = frC5.groups ++ [("m", redC5)].map Prod.fst ∧
    (frC5.agg [("m", redC5)]).df.nrows = (presentKeyTuples frC5.df frC5.groups).length ∧
    ((frC5.agg [("m", redC5)]).df.rows.map
      (fun p => p.2.take frC5.groups.length)).Nodup ∧
    List.Pairwise lexLeP
      ((frC5.agg [("m", redC5)]).df.rows.map (fun p => p.2.take frC5.groups.length)) :=
  C5_agg_shape frC5 [("m", redC5)] (by decide)

/-! ## Claim C8 -/

lemma readH_append_lt {h : Heap} {t : Table} {a : Nat} (ha : a < h.length) :
    readH (h ++ [t]) a = readH h a := by
  unfold readH
  rw [List.getElem?_append_left ha]

lemma readH_set_ne {h : Heap} {b a : Nat} {t : Table} (hne : b ≠ a) :
    readH (h.set b t) a = readH h a := by
  unfold readH
  rw [List.getElem?_set_ne hne]

lemma readH_write_ne {h : Heap} {b a : Nat} {t : Table} (hne : b ≠ a) :
    readH (writeH h b t) a = readH h a :=
  readH_set_ne hne

lemma writeH_length (h : Heap) (b : Nat) (t : Table) :
    (writeH h b t).length = h.length := by
  simp [writeH, List.length_set]

lemma append_one_length (h : Heap) (t : Table) :
    (h ++ [t]).length = h.length + 1 := by
  rw [List.length_append]
  rfl

lemma initH_pres {h : Heap} {d : Nat} {g : List String} {a : Nat} (ha : a < h.length) :
    readH (initH h d g).1 a = readH h a := by
  simp only [initH, allocH, writeH]
  rw [readH_set_ne (by omega : h.length ≠ a), readH_append_lt ha]

lemma mutLoopH_pres (aC : Nat) :
    ∀ (kwargs : List (String × (Table → Series))) (h : Heap) (a : Nat), a ≠ aC →
    readH (mutLoopH aC h kwargs).1 a = readH h a ∧
      (mutLoopH aC h kwargs).1.length = h.length := by
  intro kwargs
  induction kwargs with
  | nil =>
    intro h a _
    exact ⟨rfl, rfl⟩
  | cons q rest ih =>
    intro h a hne
    obtain ⟨c, f⟩ := q
    simp only [mutLoopH]
    split
    · obtain ⟨hr, hl⟩ := ih (writeH h aC _) a hne
      constructor
      · rw [hr, readH_write_ne (Ne.symm hne)]
      · rw [hl, writeH_length]
    · exact ⟨rfl, rfl⟩

lemma filterLoopH_pres :
    ∀ (preds : List (Table → List Bool)) (h : Heap) (b a : Nat), a < h.length →
    readH (filterLoopH h b preds).1 a = readH h a ∧
      h.length ≤ (filterLoopH h b preds).1.length := by
  intro preds
  induction preds with
  | nil =>
    intro h b a _
    exact ⟨rfl, Nat.le_refl _⟩
  | cons p rest ih =>
    intro h b a ha
    simp only [filterLoopH, allocH]
    obtain ⟨hr, hl⟩ := ih (h ++ [⟨(readH h b).header,
        (((readH h b).rows.zip (p (readH h b))).filter (fun q => q.2)).map Prod.fst⟩])
      h.length a (by rw [append_one_length]; omega)
    constructor
    · rw [hr, readH_append_lt ha]
    · refine Nat.le_trans ?_ hl
      rw [append_one_length]
      omega

/-- Claim C8: no operation observably mutates the table held by the receiver.  In the
heap model every method first copies the receiver and performs its in-place
writes only on objects it has freshly allocated, so after each call —
whether it succeeds or raises — the heap cell holding the table of the receiver
is exactly what it was before the call. -/
theorem C8_receiver_unchanged (h : Heap) (fr other : FrameR)
    (kwargs : List (String × (Table → Series))) (preds : List (Table → List Bool))
    (names cols args : List String) (asc : Bool) (n : Nat)
    (bys : Option (List String)) (ha : fr.dfA < h.length) :
    readH (mutateH h fr kwargs).1 fr.dfA = readH h fr.dfA ∧
    readH (filterH h fr preds).1 fr.dfA = readH h fr.dfA ∧
    readH (set_namesH h fr names).1 fr.dfA = readH h fr.dfA ∧
    readH (selectH h fr cols).1 fr.dfA = readH h fr.dfA ∧
    readH (dropH h fr cols).1 fr.dfA = readH h fr.dfA ∧
    readH (sortH h fr cols asc).1 fr.dfA = readH h fr.dfA ∧
    readH (group_byH h fr args).1 fr.dfA = readH h fr.dfA ∧
    readH (headH h fr n).1 fr.dfA = readH h fr.dfA ∧
    readH (left_joinH h fr other bys).1 fr.dfA = readH h fr.dfA := by
  refine ⟨?_, ?_, ?_, ?_, ?_, ?_, ?_, ?_, ?_⟩
  · simp only [mutateH, allocH]
    obtain ⟨hr, hl⟩ := mutLoopH_pres h.length kwargs (h ++ [readH h fr.dfA]) fr.dfA
      (by omega)
    split
    · rw [initH_pres (by rw [hl, append_one_length]; omega), hr, readH_append_lt ha]
    · rw [hr, readH_append_lt ha]
  · simp only [filterH, allocH]
    obtain ⟨hr, hl⟩ := filterLoopH_pres preds (h ++ [readH h fr.dfA]) h.length fr.dfA
      (by rw [append_one_length]; omega)
    rw [append_one_length] at hl
    rw [initH_pres (by omega), hr, readH_append_lt ha]
  · simp only [set_namesH, allocH]
    split
    · rw [initH_pres (by rw [writeH_length, append_one_length]; omega),
        readH_write_ne (by omega : h.length ≠ fr.dfA), readH_append_lt ha]
    · rw [readH_append_lt ha]
  · simp only [selectH, allocH]
    split
    · rw [initH_pres (by rw [append_one_length, append_one_length]; omega),
        readH_append_lt (by rw [append_one_length]; omega), readH_append_lt ha]
    · rw [readH_append_lt ha]
  · simp only [dropH, allocH]
    rw [initH_pres (by rw [append_one_length, append_one_length]; omega),
      readH_append_lt (by rw [append_one_length]; omega), readH_append_lt ha]
  · simp only [sortH, allocH]
    split
    · rw [initH_pres (by rw [append_one_length, append_one_length]; omega),
        readH_append_lt (by rw [append_one_length]; omega), readH_append_lt ha]
    · rw [readH_append_lt ha]
  · simp only [group_byH, allocH]
    split
    · rfl
    · rw [initH_pres (by rw [append_one_length]; omega), readH_append_lt ha]
  · simp only [headH, allocH]
    rw [initH_pres (by rw [append_one_length, append_one_length]; omega),
      readH_append_lt (by rw [append_one_length]; omega), readH_append_lt ha]
  · simp only [left_joinH, allocH]
    split
    · rfl
    · rw [initH_pres
          (by rw [append_one_length, append_one_length, append_one_length]; omega),
        readH_append_lt (by rw [append_one_length, append_one_length]; omega),
        readH_append_lt (by rw [append_one_length]; omega), readH_append_lt ha]

/-- Witness for C8 at concrete inputs. -/
theorem C8_receiver_unchanged_witness :
    readH (mutateH [tA] ⟨0, []⟩ [("c", gAligned)]).1 0 = readH [tA] 0 :=
  (C8_receiver_unchanged [tA] ⟨0, []⟩ ⟨0, []⟩ [("c", gAligned)] [] ["q", "r"]
    ["id"] ["id"] true 1 none (by decide)).1

end Kadro
